import Mathlib

/-!
Verification of `bbop-response-golr` (`src/lib/response.js`).

The JavaScript source is shallowly embedded: JS values are modelled by the
inductive type `JSVal` (JS `undefined` is `JSVal.undef`); JS objects are
association lists of string keys in insertion order; mutable per-instance
caches (`_doc_id2index`, `_doc_index2id`, `_doc_label_maps`) are threaded
through an explicit state `St`; operations that can throw a JS exception
(property access on `null`/`undefined`, `JSON.parse` on malformed input,
calling a string method on a non-string) return `Except JSErr`.
`St.decodes` is a ghost counter incremented exactly where the source calls
`JSON.parse`; it has no influence on behaviour and only serves to state
decode-at-most-once properties.
-/

namespace Golr

/-- Model of a JavaScript value as it appears in a parsed GOlr response.
Numbers are restricted to integers (the envelope's counts, positions and
the JSON-encoded label maps use only integers and strings). -/
inductive JSVal : Type where
  | undef : JSVal
  | null : JSVal
  | bool : Bool → JSVal
  | num : Int → JSVal
  | str : String → JSVal
  | arr : List JSVal → JSVal
  | obj : List (String × JSVal) → JSVal
deriving Repr

/-- JS truthiness: `undefined`, `null`, `false`, `0`, `""` are falsy;
every object and array is truthy. -/
def truthy : JSVal → Bool
  | .undef => false
  | .null => false
  | .bool b => b
  | .num n => n != 0
  | .str s => s != ""
  | .arr _ => true
  | .obj _ => true

/-- Check used by the source's `bbop.what_is(x) === 'string'`. -/
def isStr : JSVal → Bool
  | .str _ => true
  | _ => false

/-- Check used by the source's `bbop.what_is(x) === 'array'`. -/
def isArr : JSVal → Bool
  | .arr _ => true
  | _ => false

/-- Check that a value is a plain object (a JS document hash). -/
def isObj : JSVal → Bool
  | .obj _ => true
  | _ => false

/-- The `.length` of a JS array value (0 on anything else; the source only
takes `.length` of values already checked to be arrays). -/
def arrLen : JSVal → Nat
  | .arr xs => xs.length
  | _ => 0

/-- Element `n` of a JS array value (`undefined` out of range or on
non-arrays; the source only indexes values already checked to be arrays). -/
def arrNth : JSVal → Nat → JSVal
  | .arr xs, n => xs.getD n .undef
  | _, _ => JSVal.undef

/-- Is a JS value `undefined`?  Used for the source's
`typeof(x) !== 'undefined'` tests. -/
def isUndef : JSVal → Bool
  | .undef => true
  | _ => false

/-- The underlying string of a JS string value (only applied to values
already checked with `isStr`). -/
def strOf : JSVal → String
  | .str s => s
  | _ => ""

/-- JS string rendering of a value appearing inside an array being
coerced to a string (`null`/`undefined` render empty).  Arrays nested
inside arrays are not modelled beyond this level — the source never
coerces an array-valued key. -/
def jsPrimKey : JSVal → String
  | .undef => ""
  | .null => ""
  | .bool b => if b then "true" else "false"
  | .num n => toString n
  | .str s => s
  | .arr _ => ""
  | .obj _ => "[object Object]"

/-- JS `ToString` as used for property keys (`obj[k]` coerces `k` to a
string).  Primitive keys — the only keys the source ever produces — are
modelled exactly; array keys are joined one level deep. -/
def jsKeyOfVal : JSVal → String
  | .undef => "undefined"
  | .null => "null"
  | .bool b => if b then "true" else "false"
  | .num n => toString n
  | .str s => s
  | .arr xs => String.intercalate "," (xs.map jsPrimKey)
  | .obj _ => "[object Object]"

/-- Lookup in a JS object (first entry with the key; JS objects never hold
duplicate keys). -/
def objGet? {α : Type} : List (String × α) → String → Option α
  | [], _ => none
  | p :: m, k => if p.1 = k then some p.2 else objGet? m k

/-- Lookup in a JS object, `undefined` when the key is absent. -/
def objGet (m : List (String × JSVal)) (k : String) : JSVal :=
  (objGet? m k).getD JSVal.undef

/-- JS property assignment `m[k] = v`: replace the value of an existing
key in place, otherwise append the new key (insertion order preserved). -/
def objSet {α : Type} : List (String × α) → String → α → List (String × α)
  | [], k, v => [(k, v)]
  | p :: m, k, v => if p.1 = k then (k, v) :: m else p :: objSet m k v

/-- Decimal digit test (`Char.isDigit`, written over `Char.toNat` so the
kernel can evaluate it). -/
def isDigitC (c : Char) : Bool :=
  48 ≤ c.toNat && c.toNat ≤ 57

/-- Numeric value of a list of decimal digits. -/
def digitsVal (l : List Char) : Nat :=
  l.foldl (fun a c => a * 10 + (c.toNat - 48)) 0

/-- Is `k` the canonical decimal string of a natural number (digits
only, no leading zero)?  JS array indexing `xs[k]` reads an element
exactly for such keys. -/
def strIndex? (k : String) : Option Nat :=
  match k.data with
  | [] => none
  | c :: cs =>
    if (c :: cs).all isDigitC then
      if c = '0' ∧ cs ≠ [] then none else some (digitsVal (c :: cs))
    else none

/-- Total JS property read `v[k]` for receivers that cannot throw
(`null`/`undefined` receivers are handled separately by `getProp`). -/
def propT : JSVal → String → JSVal
  | .obj fs, k => objGet fs k
  | .arr xs, k =>
    if k = "length" then .num xs.length
    else
      match strIndex? k with
      | some n => xs.getD n .undef
      | none => .undef
  | .str s, k =>
    if k = "length" then .num s.length
    else
      match strIndex? k with
      | some n =>
        match s.data.get? n with
        | some c => .str (String.singleton c)
        | none => .undef
      | none => .undef
  | _, _ => JSVal.undef

/-- Errors a JS execution of the source can throw: a `TypeError`
(property access on `null`/`undefined`, method call on a value lacking
it) or a `SyntaxError` from `JSON.parse`. -/
inductive JSErr : Type where
  | typeError : JSErr
  | parseError : JSErr
deriving DecidableEq, Repr

/-- JS property read `v[k]`: throws `TypeError` on `null`/`undefined`
receivers, otherwise a plain read. -/
def getProp : JSVal → String → Except JSErr JSVal
  | .null, _ => .error .typeError
  | .undef, _ => .error .typeError
  | v, k => .ok (propT v k)

/-- JS array element access `xs[k]` with an arbitrary value as key: a
non-negative integer key indexes directly (its canonical string is a
canonical index); every other key goes through string coercion. -/
def arrElem (xs : List JSVal) (k : JSVal) : JSVal :=
  match k with
  | .num n => if 0 ≤ n then xs.getD n.toNat .undef else .undef
  | k => propT (.arr xs) (jsKeyOfVal k)

/-- Iteration of underscore's `us.each`: arrays and array-likes (strings)
by index, plain objects by value, primitives not at all. -/
def jsIter : JSVal → List JSVal
  | .arr xs => xs
  | .str s => s.data.map fun c => .str (String.singleton c)
  | .obj fs => fs.map fun p => p.2
  | _ => []

/-! ### A model of `JSON.parse`

The source decodes the auxiliary `_map`/`_closure_map`/`_list_map`
document fields with `JSON.parse`; a malformed string throws.  The
grammar below is standard JSON restricted to integer numerals (the label
maps carry only strings, and the envelope only integer counts). -/

/-- Drop JSON whitespace. -/
def skipWs (cs : List Char) : List Char :=
  cs.dropWhile fun c => c == ' ' || c == '\n' || c == '\t' || c == '\r'

/-- Value of a hexadecimal digit, if any. -/
def hexDigit? (c : Char) : Option Nat :=
  if 48 ≤ c.toNat && c.toNat ≤ 57 then some (c.toNat - 48)
  else if 97 ≤ c.toNat && c.toNat ≤ 102 then some (c.toNat - 97 + 10)
  else if 65 ≤ c.toNat && c.toNat ≤ 70 then some (c.toNat - 65 + 10)
  else none

/-- Parse the body of a JSON string after the opening quote, returning
the decoded characters and the input after the closing quote. -/
def parseJStr : List Char → Option (List Char × List Char)
  | [] => none
  | c :: rest =>
    if c = '"' then some ([], rest)
    else if c = '\\' then
      match rest with
      | [] => none
      | e :: rest2 =>
        if e = '"' then (parseJStr rest2).map fun p => ('"' :: p.1, p.2)
        else if e = '\\' then (parseJStr rest2).map fun p => ('\\' :: p.1, p.2)
        else if e = '/' then (parseJStr rest2).map fun p => ('/' :: p.1, p.2)
        else if e = 'b' then (parseJStr rest2).map fun p => (Char.ofNat 8 :: p.1, p.2)
        else if e = 'f' then (parseJStr rest2).map fun p => (Char.ofNat 12 :: p.1, p.2)
        else if e = 'n' then (parseJStr rest2).map fun p => ('\n' :: p.1, p.2)
        else if e = 'r' then (parseJStr rest2).map fun p => ('\r' :: p.1, p.2)
        else if e = 't' then (parseJStr rest2).map fun p => ('\t' :: p.1, p.2)
        else if e = 'u' then
          match rest2 with
          | h1 :: h2 :: h3 :: h4 :: rest3 =>
            match hexDigit? h1, hexDigit? h2, hexDigit? h3, hexDigit? h4 with
            | some a, some b, some c2, some d =>
              (parseJStr rest3).map fun p =>
                (Char.ofNat (((a * 16 + b) * 16 + c2) * 16 + d) :: p.1, p.2)
            | _, _, _, _ => none
          | _ => none
        else none
    else if c.toNat < 32 then none
    else (parseJStr rest).map fun p => (c :: p.1, p.2)

/-- Parse a JSON integer numeral. -/
def parseNum (cs : List Char) : Option (Int × List Char) :=
  let s := match cs with
    | '-' :: r => (true, r)
    | _ => (false, cs)
  match s.2 with
  | '0' :: r => if isDigitC (r.headD ' ') then none else some (0, r)
  | c :: _ =>
    if isDigitC c then
      let ds := s.2.takeWhile isDigitC
      let rest := s.2.dropWhile isDigitC
      some ((if s.1 then -(digitsVal ds : Int) else (digitsVal ds : Int)), rest)
    else none
  | [] => none

/-- Collapse duplicate keys the way `JSON.parse` does: the last
occurrence of a key wins, at the position of its first occurrence. -/
def dedupFields (fs : List (String × JSVal)) : List (String × JSVal) :=
  fs.foldl (fun m p => objSet m p.1 p.2) []

mutual

/-- Parse one JSON value (fuelled; the fuel is a bound on recursion
depth, not on input length). -/
def parseVal : Nat → List Char → Option (JSVal × List Char)
  | 0, _ => none
  | Nat.succ fuel, cs =>
    match skipWs cs with
    | [] => none
    | c :: rest =>
      if c = '"' then (parseJStr rest).map fun p => (.str p.1.asString, p.2)
      else if c = '\x7b' then
        match skipWs rest with
        | '\x7d' :: r2 => some (.obj [], r2)
        | r2 => (parseMembers fuel r2).map fun p => (.obj (dedupFields p.1), p.2)
      else if c = '[' then
        match skipWs rest with
        | ']' :: r2 => some (.arr [], r2)
        | r2 => (parseItems fuel r2).map fun p => (.arr p.1, p.2)
      else if c = 't' then
        match rest with
        | 'r' :: 'u' :: 'e' :: r => some (.bool true, r)
        | _ => none
      else if c = 'f' then
        match rest with
        | 'a' :: 'l' :: 's' :: 'e' :: r => some (.bool false, r)
        | _ => none
      else if c = 'n' then
        match rest with
        | 'u' :: 'l' :: 'l' :: r => some (.null, r)
        | _ => none
      else (parseNum (c :: rest)).map fun p => (.num p.1, p.2)

/-- Parse the members of a non-empty JSON object, consuming the closing
brace. -/
def parseMembers : Nat → List Char → Option (List (String × JSVal) × List Char)
  | 0, _ => none
  | Nat.succ fuel, cs =>
    match skipWs cs with
    | '"' :: rest =>
      match parseJStr rest with
      | none => none
      | some (key, r1) =>
        match skipWs r1 with
        | ':' :: r2 =>
          match parseVal fuel r2 with
          | none => none
          | some (v, r3) =>
            match skipWs r3 with
            | ',' :: r4 =>
              (parseMembers fuel r4).map fun p => ((key.asString, v) :: p.1, p.2)
            | '\x7d' :: r4 => some ([(key.asString, v)], r4)
            | _ => none
        | _ => none
    | _ => none

/-- Parse the items of a non-empty JSON array, consuming the closing
bracket. -/
def parseItems : Nat → List Char → Option (List JSVal × List Char)
  | 0, _ => none
  | Nat.succ fuel, cs =>
    match parseVal fuel cs with
    | none => none
    | some (v, r1) =>
      match skipWs r1 with
      | ',' :: r2 => (parseItems fuel r2).map fun p => (v :: p.1, p.2)
      | ']' :: r2 => some ([v], r2)
      | _ => none

end

/-- Model of `JSON.parse`: `none` when the string is not valid JSON (the
real call would throw a `SyntaxError`).  The fuel `2 * length + 2`
strictly exceeds any possible nesting depth of the input. -/
def jparse (s : String) : Option JSVal :=
  match parseVal (2 * s.length + 2) s.data with
  | some (v, rest) => if skipWs rest = [] then some v else none
  | none => none

/-! ### The response envelope and the instance state

`Raw` holds the sections of the parsed GOlr response (`this._raw`) that
the functions under study read: `responseHeader.params`,
`response.docs`, `facet_counts.facet_fields` and `highlighting` (the
last one as a full `JSVal`, since the source guards on its truthiness —
it may be absent altogether).  `St` is the mutable per-instance cache
state set up by the constructor. -/

/-- The sections of the raw response object read by the functions under
study. -/
structure Raw : Type where
  params : List (String × JSVal)
  docs : List JSVal
  facet_fields : List (String × JSVal)
  highlighting : JSVal
deriving Repr

/-- The mutable cache state of a `bbop-response-golr` instance.

* `doc_id2index` — `this._doc_id2index`; `none` is the constructor's
  `null`, `some` the object built by `get_doc`.
* `doc_index2id` — `this._doc_index2id`; `none` models JS `undefined`:
  the constructor initialises the misspelled property `_doc_index2_id`,
  so `_doc_index2id` does not exist until `get_doc` builds it.
* `doc_label_maps` — `this._doc_label_maps`, the incremental label-map
  cache (an object of objects).
* `decodes` — ghost counter of `JSON.parse` invocations; it never
  influences behaviour. -/
structure St : Type where
  doc_id2index : Option (List (String × JSVal))
  doc_index2id : Option (List (String × JSVal))
  doc_label_maps : List (String × JSVal)
  decodes : Nat
deriving Repr

/-- The state right after the constructor ran. -/
def stInit : St := ⟨none, none, [], 0⟩

/-! ### The embedded response functions -/

/-- The loop body of the index build in `get_doc`: one pass over the
documents recording `identifier → position` and `position → identifier`.
`doc_item['id']` throws if a document is `null`/`undefined`. -/
def buildIdxLoop : List JSVal → Nat → List (String × JSVal) →
    List (String × JSVal) →
    Except JSErr (List (String × JSVal) × List (String × JSVal))
  | [], _, a, b => .ok (a, b)
  | d :: rest, i, a, b => do
    let did ← getProp d "id"
    buildIdxLoop rest (i + 1) (objSet a (jsKeyOfVal did) (.num i))
      (objSet b (toString i) did)

/-- The probe of the built identifier index at the end of `get_doc`:
`if (this._doc_id2index && typeof(this._doc_id2index[doc_id]) !==
'undefined') doc = docs[this._doc_id2index[doc_id]]`. -/
def idProbe (r : Raw) (idx : List (String × JSVal)) (doc_id : JSVal) : JSVal :=
  let v := objGet idx (jsKeyOfVal doc_id)
  if isUndef v then .null else arrElem r.docs v

/-- Embedding of `response.prototype.get_doc`: positional access first
(`docs[doc_id]` truthy), otherwise build the bidirectional index if
`this._doc_id2index` is still `null`, then probe it as an identifier. -/
def get_doc (r : Raw) (st : St) (doc_id : JSVal) : Except JSErr (JSVal × St) :=
  let byPos := arrElem r.docs doc_id
  if truthy byPos then .ok (byPos, st)
  else
    match st.doc_id2index with
    | none =>
      match buildIdxLoop r.docs 0 [] [] with
      | .ok (a, b) =>
        .ok (idProbe r a doc_id,
          { st with doc_id2index := some a, doc_index2id := some b })
      | .error e => .error e
    | some idx => .ok (idProbe r idx doc_id, st)

/-- Embedding of `response.prototype.get_doc_field`: the field's value
when the document resolves and the field is defined, otherwise `null`. -/
def get_doc_field (r : Raw) (st : St) (doc_id : JSVal) (field_id : String) :
    Except JSErr (JSVal × St) := do
  let (doc, st) ← get_doc r st doc_id
  if truthy doc && !isUndef (propT doc field_id) then
    .ok (propT doc field_id, st)
  else
    .ok (.null, st)

/-- Store a freshly decoded map `j` in the cache under `(dk, map_field)`
(the assignment `anchor._doc_label_maps[doc_key][map_field] = ...`; an
assignment on a non-object cache slot is a sloppy-mode no-op, and the
slot can never be `null`/`undefined` here because the read just before
it would have thrown). -/
def storeParsed (maps : List (String × JSVal)) (dk map_field : String) (j : JSVal) :
    List (String × JSVal) :=
  match objGet maps dk with
  | .obj fs => objSet maps dk (.obj (objSet fs map_field j))
  | _ => maps

/-- The decode-and-store step of `_map_to_try` on a cache miss: run
`JSON.parse` on the map string (propagating its `SyntaxError` on
malformed input) and store the result; the second component counts the
`JSON.parse` invocation. -/
def decodeStep (maps0 : List (String × JSVal)) (dk map_field : String)
    (s : String) (d : Nat) : Except JSErr (List (String × JSVal) × Nat) :=
  match jparse s with
  | some j => .ok (storeParsed maps0 dk map_field j, d + 1)
  | none => .error .parseError

/-- The cache-and-probe step of `_map_to_try`, after the map field has
been read into `map_str`: ensure the per-key cache object exists, decode
and store the JSON string on a cache miss, then probe the decoded
mapping for `item_key`. -/
def mapProbe (st : St) (dk map_field : String) (map_str item_key : JSVal) :
    Except JSErr (JSVal × St) := do
  if truthy map_str && isStr map_str then
    let maps0 :=
      if isUndef (objGet st.doc_label_maps dk) then
        objSet st.doc_label_maps dk (.obj [])
      else st.doc_label_maps
    let entry ← getProp (objGet maps0 dk) map_field
    let stored ←
      if isUndef entry then
        decodeStep maps0 dk map_field (strOf map_str) st.decodes
      else
        .ok (maps0, st.decodes)
    let st := { st with doc_label_maps := stored.1, decodes := stored.2 }
    let mp ← getProp (objGet st.doc_label_maps dk) map_field
    if truthy mp && truthy (propT mp (jsKeyOfVal item_key)) then
      .ok (propT mp (jsKeyOfVal item_key), st)
    else
      .ok (.null, st)
  else
    .ok (.null, st)

/-- Embedding of the inner closure `_map_to_try` of `get_doc_label`:
read the JSON-encoded map field, decode and cache it under
(`doc_key` coerced to a string, `map_field`) on first use, then probe
the decoded mapping for `item_key`. -/
def map_to_try (r : Raw) (st : St) (doc_key : JSVal) (map_field : String)
    (item_key : JSVal) : Except JSErr (JSVal × St) := do
  let (map_str, st) ← get_doc_field r st doc_key map_field
  mapProbe st (jsKeyOfVal doc_key) map_field map_str item_key

/-- Embedding of `response.prototype.get_doc_label`: `_label` scalar
string first, then the trivial one-to-one sequence case, then the three
auxiliary maps in order `_map`, `_closure_map`, `_list_map`. -/
def get_doc_label (r : Raw) (st : St) (doc_id : JSVal) (field_id : String)
    (item_id : JSVal) : Except JSErr (JSVal × St) := do
  let (doc, st) ← get_doc r st doc_id
  if truthy doc && !isUndef (propT doc field_id) then
    let (ilabel, st) ← get_doc_field r st doc_id (field_id ++ "_label")
    if truthy ilabel && isStr ilabel then
      .ok (ilabel, st)
    else if truthy ilabel && isArr ilabel then
      let (iid, st) ← get_doc_field r st doc_id field_id
      if arrLen ilabel == 1 && truthy iid && isArr iid && arrLen iid == 1 then
        .ok (arrNth ilabel 0, st)
      else
        let (m1, st) ← map_to_try r st doc_id (field_id ++ "_map") item_id
        if truthy m1 then .ok (m1, st)
        else
          let (m2, st) ← map_to_try r st doc_id (field_id ++ "_closure_map") item_id
          if truthy m2 then .ok (m2, st)
          else
            let (m3, st) ← map_to_try r st doc_id (field_id ++ "_list_map") item_id
            if truthy m3 then .ok (m3, st)
            else .ok (.null, st)
    else
      .ok (.null, st)
  else
    .ok (.null, st)

/-! ### Highlight extraction -/

/-- The input remaining after the first `'>'`, if any. -/
def afterGt? (cs : List Char) : Option (List Char) :=
  match cs.dropWhile (fun c => c != '>') with
  | _ :: rest => some rest
  | [] => none

/-- Fuelled worker for `stripTags` (the fuel — the input length —
strictly bounds the number of steps, each of which consumes at least one
character). -/
def stripTagsF : Nat → List Char → List Char
  | 0, cs => cs
  | Nat.succ fuel, cs =>
    match cs with
    | [] => []
    | c :: rest =>
      if c = '<' then
        match afterGt? rest with
        | some rest2 => stripTagsF fuel rest2
        | none => c :: stripTagsF fuel rest
      else
        c :: stripTagsF fuel rest

/-- Global replacement of the compiled regular expression
`<[^>]*>` by the empty string, as in `an.replace(this._hl_regexp, '')`:
each `'<'` that is followed by a later `'>'` is removed together with
everything up to that `'>'`. -/
def stripTags (cs : List Char) : List Char :=
  stripTagsF cs.length cs

/-- JS strict equality `item === stripped` against a known string: true
exactly when `item` is the same string. -/
def jsStrictEqStr (v : JSVal) (s : String) : Bool :=
  match v with
  | .str t => t == s
  | _ => false

/-- The first-match scan over the highlight fragments
(`us.each(ans, ...)` guarded by `matches_p`): return the first fragment
whose tag-stripped text equals `item`; calling `.replace` on a
non-string fragment throws. -/
def hlScan (item : JSVal) : List JSVal → Except JSErr JSVal
  | [] => .ok .null
  | an :: rest =>
    match an with
    | .str s =>
      if jsStrictEqStr item (stripTags s.data).asString then .ok (.str s)
      else hlScan item rest
    | _ => .error .typeError

/-- Embedding of `response.prototype.get_doc_highlight`.  Note the
unguarded read `this._doc_index2id[doc_id]` in the source: when the
index has not been built yet the property is `undefined` (the
constructor initialises the misspelled `_doc_index2_id`), so the read
throws a `TypeError`. -/
def get_doc_highlight (r : Raw) (st : St) (doc_id : JSVal) (field_id : String)
    (item : JSVal) : Except JSErr (JSVal × St) := do
  let (hilite_obj, st) ←
    if truthy r.highlighting && truthy (propT r.highlighting (jsKeyOfVal doc_id)) then
      .ok (propT r.highlighting (jsKeyOfVal doc_id), st)
    else
      match st.doc_index2id with
      | none => (.error .typeError : Except JSErr (JSVal × St))
      | some idx =>
        let iid := objGet idx (jsKeyOfVal doc_id)
        if truthy iid then do
          let (new_doc, st) ← get_doc r st iid
          let new_doc_id ← getProp new_doc "id"
          if truthy r.highlighting &&
              truthy (propT r.highlighting (jsKeyOfVal new_doc_id)) then
            .ok (propT r.highlighting (jsKeyOfVal new_doc_id), st)
          else
            .ok (.null, st)
        else
          .ok (.null, st)
  if truthy hilite_obj then
    let a1 := propT hilite_obj (field_id ++ "_label_searchable")
    let a2 := if truthy a1 then a1 else propT hilite_obj (field_id ++ "_label")
    let a3 := if truthy a2 then a2 else propT hilite_obj (field_id ++ "_searchable")
    let ans := if truthy a3 then a3 else propT hilite_obj field_id
    if truthy ans then
      let f ← hlScan item (jsIter ans)
      .ok (f, st)
    else
      .ok (.null, st)
  else
    .ok (.null, st)

/-! ### Query parameters and the filter-query decoder -/

/-- Embedding of `response.prototype.parameter`: the stored value when
it is truthy, otherwise `null` (the source tests
`robj.responseHeader.params[key]` for truthiness — twice). -/
def parameter (r : Raw) (key : String) : JSVal :=
  let v := objGet r.params key
  if truthy v then v else .null

/-- JS `split(":")` on the characters of a string (never returns an
empty list; splitting the empty string gives `[[]]`). -/
def splitColon : List Char → List (List Char)
  | [] => [[]]
  | c :: rest =>
    if c = ':' then [] :: splitColon rest
    else
      match splitColon rest with
      | s :: ss => (c :: s) :: ss
      | [] => [[c]]

/-- JS `join(":")`. -/
def joinColon : List (List Char) → List Char
  | [] => []
  | [s] => s
  | s :: ss => s ++ ':' :: joinColon ss

/-- The field part of an `fq` entry: everything before the first colon
(`splits.shift()`). -/
def fqField (s : List Char) : List Char :=
  (splitColon s).headD []

/-- The value part of an `fq` entry: everything after the first colon,
remaining colons rejoined (`splits.join(":")`). -/
def fqValue (s : List Char) : List Char :=
  joinColon (splitColon s).tail

/-- Polarity handling of `query_filters`: a leading `'-'` gives a
negative filter, a leading `'+'` is removed, anything else is positive. -/
def fqPolarity : List Char → List Char × Bool
  | '-' :: rest => (rest, false)
  | '+' :: rest => (rest, true)
  | f => (f, true)

/-- JS `String.prototype.substring(a, b)` (clamps both ends and swaps
them when out of order). -/
def jsSubstring (s : List Char) (a b : Nat) : List Char :=
  let a' := min a s.length
  let b' := min b s.length
  ((s.drop (min a' b')).take (max a' b' - min a' b'))

/-- Strip one outer pair of matching double quotes, as `query_filters`
does with `value.substring(1, value.length - 1)`. -/
def stripOuterQuotes (v : List Char) : List Char :=
  if v.get? 0 = some '"' ∧ v.get? (v.length - 1) = some '"' then
    jsSubstring v 1 (v.length - 1)
  else v

/-- Processing of one `fq` entry by `query_filters` (`fq_item.split`
throws on a non-string entry). -/
def processFq (acc : List (String × List (String × Bool))) (it : JSVal) :
    Except JSErr (List (String × List (String × Bool))) :=
  match it with
  | .str s =>
    let fp := fqPolarity (fqField s.data)
    let field := fp.1.asString
    let acc1 := if (objGet? acc field).isSome then acc else acc ++ [(field, [])]
    let value := (stripOuterQuotes (fqValue s.data)).asString
    .ok (objSet acc1 field (objSet ((objGet? acc1 field).getD []) value fp.2))
  | _ => .error .typeError

/-- Embedding of `response.prototype.query_filters`: normalise `fq` to a
list (a bare string is wrapped; underscore iterates an object by values
and ignores other primitives) and fold the entries into the polarity
map. -/
def query_filters (r : Raw) : Except JSErr (List (String × List (String × Bool))) :=
  let fq := parameter r "fq"
  if truthy fq then
    let fq_list : List JSVal := if isStr fq then [fq] else jsIter fq
    fq_list.foldlM processFq []
  else
    .ok []

/-! ### Facet aggregation -/

/-- Lexicographic comparison of character lists by code point, as JS
compares strings (written over `Char.toNat` so the kernel can evaluate
it). -/
def charsLt : List Char → List Char → Bool
  | [], [] => false
  | [], _ :: _ => true
  | _ :: _, [] => false
  | a :: as, b :: bs =>
    if a.toNat < b.toNat then true
    else if b.toNat < a.toNat then false
    else charsLt as bs

/-- Insertion into a lexicographically sorted list of strings. -/
def insertSorted (x : String) : List String → List String
  | [] => [x]
  | y :: ys => if charsLt x.data y.data then x :: y :: ys else y :: insertSorted x ys

/-- Lexicographic sort, as JS `Array.prototype.sort()` on strings. -/
def sortStrings (l : List String) : List String :=
  l.foldr insertSorted []

/-- Embedding of `response.prototype.facet_field_list`: the sorted keys
of `facet_counts.facet_fields`. -/
def facet_field_list (r : Raw) : List String :=
  sortStrings (r.facet_fields.map fun p => p.1)

/-- Embedding of `response.prototype.facet_field`: the raw entry of a
facet field. -/
def facet_field (r : Raw) (facet_name : String) : JSVal :=
  objGet r.facet_fields facet_name

/-- The per-item step of `facet_counts`: read `item[0]` as the value and
`item[1]` as the count (either read throws on a `null`/`undefined`
item) and assign `ret_hash[ffield][name] = count`. -/
def facetStep (ffield : String) (ret2 : List (String × List (String × JSVal)))
    (it : JSVal) : Except JSErr (List (String × List (String × JSVal))) := do
  let name ← getProp it "0"
  let count ← getProp it "1"
  .ok (objSet ret2 ffield
    (objSet ((objGet? ret2 ffield).getD []) (jsKeyOfVal name) count))

/-- Embedding of `response.prototype.facet_counts`: for each facet field
(in sorted order) make sure the field has a slot, then iterate its
items with `facetStep`. -/
def facet_counts (r : Raw) :
    Except JSErr (List (String × List (String × JSVal))) :=
  (facet_field_list r).foldlM
    (fun ret ffield => do
      let ret1 := if (objGet? ret ffield).isSome then ret else objSet ret ffield []
      (jsIter (facet_field r ffield)).foldlM (facetStep ffield) ret1)
    []

/-! ### Lemmas about the JS object model and the `Except` monad -/

theorem ebind_ok {ε α β : Type} (a : α) (f : α → Except ε β) :
    (Except.ok a >>= f) = f a := rfl

theorem ebind_error {ε α β : Type} (e : ε) (f : α → Except ε β) :
    ((Except.error e : Except ε α) >>= f) = .error e := rfl

theorem objGet?_objSet_self {α : Type} (m : List (String × α)) (k : String) (v : α) :
    objGet? (objSet m k v) k = some v := by
  induction m with
  | nil => simp [objSet, objGet?]
  | cons p m ih =>
    by_cases h : p.1 = k
    · simp [objSet, h, objGet?]
    · simpa [objSet, h, objGet?] using ih

theorem objGet?_objSet_ne {α : Type} (m : List (String × α)) (k k' : String) (v : α)
    (h : k' ≠ k) : objGet? (objSet m k v) k' = objGet? m k' := by
  induction m with
  | nil => simp [objSet, objGet?, Ne.symm h]
  | cons p m ih =>
    by_cases hp : p.1 = k
    · subst hp
      simp [objSet, objGet?, Ne.symm h]
    · by_cases hp' : p.1 = k'
      · simp [objSet, hp, objGet?, hp', h]
      · simpa [objSet, hp, objGet?, hp'] using ih

theorem objGet_objSet_self (m : List (String × JSVal)) (k : String) (v : JSVal) :
    objGet (objSet m k v) k = v := by
  simp [objGet, objGet?_objSet_self]

theorem objGet_objSet_ne (m : List (String × JSVal)) (k k' : String) (v : JSVal)
    (h : k' ≠ k) : objGet (objSet m k v) k' = objGet m k' := by
  simp [objGet, objGet?_objSet_ne m k k' v h]

/-! ### `JSON.parse` never yields `undefined` -/

theorem parseVal_ne_undef (fuel : Nat) (cs : List Char) (v : JSVal) (rest : List Char)
    (h : parseVal fuel cs = some (v, rest)) : ¬ v = .undef := by
  intro hv
  subst hv
  match fuel with
  | 0 => simp [parseVal] at h
  | Nat.succ f =>
    unfold parseVal at h
    split at h
    · simp at h
    · split_ifs at h
      all_goals try split at h
      all_goals try (simp only [Option.map_eq_some'] at h
                     obtain ⟨p, -, hp⟩ := h
                     simp at hp)
      all_goals simp at h

theorem jparse_ne_undef (s : String) (v : JSVal) (h : jparse s = some v) :
    ¬ v = .undef := by
  unfold jparse at h
  split at h
  case _ p heq =>
    split_ifs at h
    cases h
    exact parseVal_ne_undef _ _ _ _ heq
  case _ => simp at h

/-! ### State preservation and stability of the document lookup -/

theorem get_doc_preserves (r : Raw) (st : St) (k d : JSVal) (st' : St)
    (h : get_doc r st k = .ok (d, st')) :
    st'.doc_label_maps = st.doc_label_maps ∧ st'.decodes = st.decodes := by
  simp only [get_doc] at h
  split_ifs at h with h1
  · cases h; exact ⟨rfl, rfl⟩
  · split at h
    · split at h
      · cases h; exact ⟨rfl, rfl⟩
      · cases h
    · cases h; exact ⟨rfl, rfl⟩

theorem get_doc_stable (r : Raw) (st : St) (k d : JSVal) (st₁ : St)
    (h : get_doc r st k = .ok (d, st₁)) (st₂ : St)
    (hidx : st₂.doc_id2index = st₁.doc_id2index) :
    get_doc r st₂ k = .ok (d, st₂) := by
  simp only [get_doc] at h ⊢
  split_ifs at h ⊢ with h1
  · cases h; rfl
  · split at h
    case _ hnone =>
      split at h
      case _ a b hbuild =>
        cases h
        simp only at hidx
        rw [hidx]
      case _ e hbuild => cases h
    case _ idx hsome =>
      cases h
      rw [hidx, hsome]

theorem get_doc_field_preserves (r : Raw) (st : St) (k : JSVal) (f : String)
    (v : JSVal) (st' : St) (h : get_doc_field r st k f = .ok (v, st')) :
    st'.doc_label_maps = st.doc_label_maps ∧ st'.decodes = st.decodes := by
  unfold get_doc_field at h
  cases hgd : get_doc r st k with
  | error e => rw [hgd] at h; cases h
  | ok p =>
    rw [hgd] at h
    obtain ⟨d, stm⟩ := p
    rw [ebind_ok] at h
    have := get_doc_preserves r st k d stm hgd
    simp only at h
    split_ifs at h <;> (cases h; exact this)

theorem get_doc_field_stable (r : Raw) (st : St) (k : JSVal) (f : String)
    (v : JSVal) (st₁ : St) (h : get_doc_field r st k f = .ok (v, st₁)) (st₂ : St)
    (hidx : st₂.doc_id2index = st₁.doc_id2index) :
    get_doc_field r st₂ k f = .ok (v, st₂) := by
  unfold get_doc_field at h ⊢
  cases hgd : get_doc r st k with
  | error e => rw [hgd] at h; cases h
  | ok p =>
    obtain ⟨d, stm⟩ := p
    rw [hgd, ebind_ok] at h
    simp only at h
    have hgd2 := get_doc_stable r st k d stm hgd st₂ (by
      split_ifs at h <;> (cases h; exact hidx))
    rw [hgd2, ebind_ok]
    simp only
    split_ifs at h ⊢ <;> (cases h; rfl)

/-! ### Reuse of the decoded label-map cache -/

theorem getProp_obj (fs : List (String × JSVal)) (k : String) :
    getProp (.obj fs) k = .ok (objGet fs k) := rfl

theorem isUndef_false_of_ne (v : JSVal) (h : ¬ v = .undef) : isUndef v = false := by
  cases v
  · exact absurd rfl h
  all_goals rfl

/-- Values in a JS object stay objects under insertion of an object. -/
theorem wf_objSet (m : List (String × JSVal)) (k : String) (w : JSVal)
    (hwf : ∀ p ∈ m, isObj p.2 = true) (hw : isObj w = true) :
    ∀ p ∈ objSet m k w, isObj p.2 = true := by
  induction m with
  | nil => simpa [objSet] using hw
  | cons q m ih =>
    by_cases hq : q.1 = k
    · simp only [objSet, if_pos hq]
      intro p hp
      rcases List.mem_cons.mp hp with hp | hp
      · simp [hp, hw]
      · exact hwf p (List.mem_cons_of_mem q hp)
    · simp only [objSet, if_neg hq]
      intro p hp
      rcases List.mem_cons.mp hp with hp | hp
      · exact hwf p (by simp [hp])
      · exact ih (fun p hp => hwf p (List.mem_cons_of_mem q hp)) p hp

/-- In a well-formed cache, a key resolves to `undefined` or to an
object. -/
theorem objGet_wf (m : List (String × JSVal)) (k : String)
    (hwf : ∀ p ∈ m, isObj p.2 = true) :
    objGet m k = .undef ∨ ∃ fs, objGet m k = .obj fs := by
  induction m with
  | nil => left; rfl
  | cons q m ih =>
    by_cases hq : q.1 = k
    · right
      have : isObj q.2 = true := hwf q (List.mem_cons_self q m)
      rcases hv : q.2 with _ | _ | _ | _ | _ | _ | fs <;> rw [hv] at this <;>
        simp [isObj] at this
      exact ⟨fs, by simp [objGet, objGet?, hq, hv]⟩
    · have := ih (fun p hp => hwf p (List.mem_cons_of_mem q hp))
      simpa [objGet, objGet?, hq] using this

theorem storeParsed_eq (maps : List (String × JSVal)) (dk mf : String) (j : JSVal)
    (fs : List (String × JSVal)) (h : objGet maps dk = .obj fs) :
    storeParsed maps dk mf j = objSet maps dk (.obj (objSet fs mf j)) := by
  unfold storeParsed
  rw [h]

theorem decodeStep_some (maps0 : List (String × JSVal)) (dk mf : String)
    (s : String) (d : Nat) (j : JSVal) (h : jparse s = some j) :
    decodeStep maps0 dk mf s d = .ok (storeParsed maps0 dk mf j, d + 1) := by
  unfold decodeStep
  rw [h]

theorem decodeStep_none (maps0 : List (String × JSVal)) (dk mf : String)
    (s : String) (d : Nat) (h : jparse s = none) :
    decodeStep maps0 dk mf s d = .error .parseError := by
  unfold decodeStep
  rw [h]

/-- A `mapProbe` run that finds its decoded map already cached: no
state change, result taken from the cached mapping. -/
theorem mapProbe_cached (st : St) (dk mf : String) (ms i : JSVal)
    (fs : List (String × JSVal))
    (hc : (truthy ms && isStr ms) = true)
    (hdk : objGet st.doc_label_maps dk = .obj fs)
    (hent : isUndef (objGet fs mf) = false) :
    mapProbe st dk mf ms i =
      if truthy (objGet fs mf) && truthy (propT (objGet fs mf) (jsKeyOfVal i)) then
        .ok (propT (objGet fs mf) (jsKeyOfVal i), st)
      else .ok (.null, st) := by
  unfold mapProbe
  rw [if_pos hc]
  dsimp only
  have hcond : isUndef (objGet st.doc_label_maps dk) = false := by
    rw [hdk]; simp [isUndef]
  rw [hcond, if_neg Bool.false_ne_true, hdk, getProp_obj, ebind_ok]
  rw [if_neg (by rw [hent]; exact Bool.false_ne_true), ebind_ok]
  rw [hdk, getProp_obj, ebind_ok]

/-- A `mapProbe` run that misses the cache and decodes successfully:
the parsed map is stored under `(dk, mf)` and the decode counter moves
by one. -/
theorem mapProbe_decode (st : St) (dk mf : String) (ms i : JSVal)
    (fs : List (String × JSVal)) (j : JSVal)
    (hc : (truthy ms && isStr ms) = true)
    (hfs : objGet (if isUndef (objGet st.doc_label_maps dk) = true then
        objSet st.doc_label_maps dk (.obj []) else st.doc_label_maps) dk = .obj fs)
    (hent : isUndef (objGet fs mf) = true)
    (hjp : jparse (strOf ms) = some j) :
    mapProbe st dk mf ms i =
      (if truthy j && truthy (propT j (jsKeyOfVal i)) then
        .ok (propT j (jsKeyOfVal i),
          ⟨st.doc_id2index, st.doc_index2id,
            objSet (if isUndef (objGet st.doc_label_maps dk) = true then
              objSet st.doc_label_maps dk (.obj []) else st.doc_label_maps)
              dk (.obj (objSet fs mf j)),
            st.decodes + 1⟩)
      else
        .ok (.null,
          ⟨st.doc_id2index, st.doc_index2id,
            objSet (if isUndef (objGet st.doc_label_maps dk) = true then
              objSet st.doc_label_maps dk (.obj []) else st.doc_label_maps)
              dk (.obj (objSet fs mf j)),
            st.decodes + 1⟩)) := by
  unfold mapProbe
  rw [if_pos hc]
  dsimp only
  rw [hfs, getProp_obj, ebind_ok]
  rw [if_pos hent, decodeStep_some _ _ _ _ _ _ hjp,
    storeParsed_eq _ _ _ _ _ hfs, ebind_ok]
  dsimp only
  rw [objGet_objSet_self, getProp_obj, ebind_ok, objGet_objSet_self]

/-- A `mapProbe` run that misses the cache on a string that fails to
decode: the `SyntaxError` of `JSON.parse` propagates. -/
theorem mapProbe_decode_err (st : St) (dk mf : String) (ms i : JSVal)
    (fs : List (String × JSVal))
    (hc : (truthy ms && isStr ms) = true)
    (hfs : objGet (if isUndef (objGet st.doc_label_maps dk) = true then
        objSet st.doc_label_maps dk (.obj []) else st.doc_label_maps) dk = .obj fs)
    (hent : isUndef (objGet fs mf) = true)
    (hjp : jparse (strOf ms) = none) :
    mapProbe st dk mf ms i = .error .parseError := by
  unfold mapProbe
  rw [if_pos hc]
  dsimp only
  rw [hfs, getProp_obj, ebind_ok]
  rw [if_pos hent, decodeStep_none _ _ _ _ _ hjp]
  rfl

/-- The object the ensure step of `mapProbe` leaves at `dk` always
exists and is an object when the cache is well formed. -/
theorem ensure_obj (st : St) (dk : String)
    (hwf : ∀ p ∈ st.doc_label_maps, isObj p.2 = true) :
    ∃ fs, objGet (if isUndef (objGet st.doc_label_maps dk) = true then
        objSet st.doc_label_maps dk (.obj []) else st.doc_label_maps) dk = .obj fs := by
  rcases objGet_wf st.doc_label_maps dk hwf with hu | ⟨fs, hfs⟩
  · rw [if_pos (by rw [hu]; rfl)]
    exact ⟨[], objGet_objSet_self _ _ _⟩
  · rw [if_neg (by rw [hfs]; simp [isUndef])]
    exact ⟨fs, hfs⟩

/-- Core cache-reuse property of `_map_to_try`'s probe step: once a run
has succeeded, running it again with the same key and map field returns
the same label and leaves the state untouched, and any single run
decodes at most once. -/
theorem mapProbe_reuse (st : St) (dk mf : String) (ms i : JSVal)
    (hwf : ∀ p ∈ st.doc_label_maps, isObj p.2 = true)
    (v : JSVal) (st' : St) (h : mapProbe st dk mf ms i = .ok (v, st')) :
    mapProbe st' dk mf ms i = .ok (v, st') ∧
    st'.decodes ≤ st.decodes + 1 ∧
    st'.doc_id2index = st.doc_id2index ∧
    (∀ p ∈ st'.doc_label_maps, isObj p.2 = true) := by
  by_cases hc : (truthy ms && isStr ms) = true
  · obtain ⟨fs, hfs⟩ := ensure_obj st dk hwf
    have hMwf : ∀ p ∈ (if isUndef (objGet st.doc_label_maps dk) = true then
        objSet st.doc_label_maps dk (.obj []) else st.doc_label_maps), isObj p.2 = true := by
      split_ifs
      · exact wf_objSet _ _ _ hwf rfl
      · exact hwf
    by_cases hent : isUndef (objGet fs mf) = true
    · rcases hjp : jparse (strOf ms) with _ | j
      · rw [mapProbe_decode_err st dk mf ms i fs hc hfs hent hjp] at h
        cases h
      · rw [mapProbe_decode st dk mf ms i fs j hc hfs hent hjp] at h
        have hju : isUndef j = false :=
          isUndef_false_of_ne j (jparse_ne_undef _ _ hjp)
        have hwf2 : ∀ p ∈ objSet (if isUndef (objGet st.doc_label_maps dk) = true then
            objSet st.doc_label_maps dk (.obj []) else st.doc_label_maps)
            dk (.obj (objSet fs mf j)), isObj p.2 = true :=
          wf_objSet _ _ _ hMwf rfl
        by_cases hcond : (truthy j && truthy (propT j (jsKeyOfVal i))) = true
        · rw [if_pos hcond] at h
          cases h
          refine ⟨?_, Nat.le_refl _, rfl, hwf2⟩
          rw [mapProbe_cached _ dk mf ms i (objSet fs mf j) hc
            (objGet_objSet_self _ _ _) (by rw [objGet_objSet_self]; exact hju)]
          rw [objGet_objSet_self, if_pos hcond]
        · rw [if_neg hcond] at h
          cases h
          refine ⟨?_, Nat.le_refl _, rfl, hwf2⟩
          rw [mapProbe_cached _ dk mf ms i (objSet fs mf j) hc
            (objGet_objSet_self _ _ _) (by rw [objGet_objSet_self]; exact hju)]
          rw [objGet_objSet_self, if_neg hcond]
    · have hent' : isUndef (objGet fs mf) = false := by
        cases hb : isUndef (objGet fs mf)
        · rfl
        · exact absurd hb hent
      have hdk0 : objGet st.doc_label_maps dk = .obj fs := by
        by_cases hu : isUndef (objGet st.doc_label_maps dk) = true
        · rw [if_pos hu, objGet_objSet_self] at hfs
          cases hfs
          simp [objGet, objGet?, isUndef] at hent'
        · rw [if_neg hu] at hfs
          exact hfs
      rw [mapProbe_cached st dk mf ms i fs hc hdk0 hent'] at h
      by_cases hcond : (truthy (objGet fs mf) &&
          truthy (propT (objGet fs mf) (jsKeyOfVal i))) = true
      · rw [if_pos hcond] at h
        cases h
        refine ⟨?_, Nat.le_succ _, rfl, hwf⟩
        rw [mapProbe_cached st dk mf ms i fs hc hdk0 hent', if_pos hcond]
      · rw [if_neg hcond] at h
        cases h
        refine ⟨?_, Nat.le_succ _, rfl, hwf⟩
        rw [mapProbe_cached st dk mf ms i fs hc hdk0 hent', if_neg hcond]
  · unfold mapProbe at h ⊢
    rw [if_neg hc] at h
    cases h
    rw [if_neg hc]
    exact ⟨rfl, Nat.le_succ _, rfl, hwf⟩

/-- Cache reuse lifted to `_map_to_try` itself: a successful probe
decodes at most one map string, and repeating it with the same document
key and map field returns the same label without touching the state
again. -/
theorem map_to_try_reuse (r : Raw) (st : St) (k : JSVal) (mf : String) (i : JSVal)
    (hwf : ∀ p ∈ st.doc_label_maps, isObj p.2 = true)
    (v : JSVal) (st' : St) (h : map_to_try r st k mf i = .ok (v, st')) :
    map_to_try r st' k mf i = .ok (v, st') ∧ st'.decodes ≤ st.decodes + 1 := by
  unfold map_to_try at h ⊢
  cases hgf : get_doc_field r st k mf with
  | error e => rw [hgf] at h; cases h
  | ok p =>
    obtain ⟨ms, st1⟩ := p
    rw [hgf, ebind_ok] at h
    dsimp only at h
    have hpres := get_doc_field_preserves r st k mf ms st1 hgf
    have hwf1 : ∀ q ∈ st1.doc_label_maps, isObj q.2 = true := by
      rw [hpres.1]; exact hwf
    have hre := mapProbe_reuse st1 (jsKeyOfVal k) mf ms i hwf1 v st' h
    have hgf2 := get_doc_field_stable r st k mf ms st1 hgf st' hre.2.2.1
    rw [hgf2, ebind_ok]
    exact ⟨hre.1, le_trans hre.2.1 (by rw [hpres.2])⟩

/-! ## Claim theorems -/

/-! ### C1 — `facet_counts` -/

/-- Envelope whose `facet_counts.facet_fields` entry is the flat
alternating value/count sequence used by the claim's example. -/
def rFacetFlat : Raw :=
  ⟨[], [], [("go_aspect", .arr [.str "biological_process", .num 120,
    .str "molecular_function", .num 80])], .undef⟩

/-- C1 counterexample: on a flat alternating sequence `facet_counts`
does not pair values with counts — each item is indexed with `[0]` and
`[1]` individually, so the strings contribute their first two characters
and the numbers contribute `undefined`; in particular the claimed entry
`biological_process ↦ 120` is absent. -/
theorem facet_counts_flat_counterexample :
    facet_counts rFacetFlat =
      .ok [("go_aspect",
        [("b", .str "i"), ("undefined", .undef), ("m", .str "o")])] ∧
    objGet [("b", JSVal.str "i"), ("undefined", JSVal.undef), ("m", JSVal.str "o")]
      "biological_process" = .undef ∧
    JSVal.undef ≠ JSVal.num 120 :=
  ⟨rfl, rfl, fun h => JSVal.noConfusion h⟩

/-- The encoding of a `(value, count)` pair sequence as the doublet
lists the source documents for `facet_field` (`[["foo", 60], ...]`). -/
def encodePairs (ps : List (String × Int)) : JSVal :=
  .arr (ps.map fun p => .arr [.str p.1, .num p.2])

/-- An envelope with one facet field holding a pair sequence. -/
def mkFacetRaw (f : String) (ps : List (String × Int)) : Raw :=
  ⟨[], [], [(f, encodePairs ps)], .undef⟩

/-- The flattening described by the spec: fold the pair sequence into a
mapping where the last duplicate value wins. -/
def specLastWins (ps : List (String × Int)) : List (String × JSVal) :=
  ps.foldl (fun m p => objSet m p.1 (.num p.2)) []

theorem facet_fold (f : String) (ps : List (String × Int))
    (acc : List (String × JSVal)) :
    List.foldlM (facetStep f) [(f, acc)]
      (ps.map fun p => JSVal.arr [.str p.1, .num p.2]) =
    .ok [(f, ps.foldl (fun m p => objSet m p.1 (.num p.2)) acc)] := by
  induction ps generalizing acc with
  | nil => rfl
  | cons p ps ih =>
    simp only [List.map_cons, List.foldlM, List.foldl_cons]
    have hstep : facetStep f [(f, acc)] (JSVal.arr [.str p.1, .num p.2]) =
        .ok [(f, objSet acc p.1 (.num p.2))] := by
      unfold facetStep
      rw [show getProp (JSVal.arr [.str p.1, .num p.2]) "0" = .ok (.str p.1) from rfl,
        ebind_ok]
      rw [show getProp (JSVal.arr [.str p.1, .num p.2]) "1" = .ok (.num p.2) from rfl,
        ebind_ok]
      simp [objGet?, objSet, jsKeyOfVal]
    rw [hstep, ebind_ok]
    exact ih (objSet acc p.1 (.num p.2))

theorem objGet_foldl (ps : List (String × Int)) (acc : List (String × JSVal))
    (v : String) :
    objGet (ps.foldl (fun m p => objSet m p.1 (.num p.2)) acc) v =
      (match ps.reverse.find? (fun p => p.1 == v) with
        | some p => JSVal.num p.2
        | none => objGet acc v) := by
  induction ps generalizing acc with
  | nil => rfl
  | cons p ps ih =>
    simp only [List.foldl_cons, List.reverse_cons, ih, List.find?_append]
    cases hf : ps.reverse.find? (fun q => q.1 == v) with
    | some q => simp
    | none =>
      by_cases hv : p.1 = v
      · subst hv
        simp only [List.find?, beq_self_eq_true, Option.none_or, objGet_objSet_self]
      · have hb : (p.1 == v) = false := by simp [hv]
        simp only [List.find?, hb, Option.none_or]
        exact objGet_objSet_ne _ _ _ _ (Ne.symm hv)

/-- C1 (amended): when a facet field's entry is a sequence of
`[value, count]` pairs — the doublet form the source documents —
`facet_counts` flattens it into the mapping from each value to its
count, and on duplicate values the last pair wins. -/
theorem facet_counts_pairs (f : String) (ps : List (String × Int)) :
    facet_counts (mkFacetRaw f ps) = .ok [(f, specLastWins ps)] ∧
    (∀ v, objGet (specLastWins ps) v =
      (match ps.reverse.find? (fun p => p.1 == v) with
        | some p => JSVal.num p.2
        | none => .undef)) := by
  constructor
  · unfold facet_counts mkFacetRaw
    have h1 : facet_field_list ⟨[], [], [(f, encodePairs ps)], .undef⟩ = [f] := rfl
    rw [h1]
    simp only [List.foldlM]
    have h2 : facet_field ⟨[], [], [(f, encodePairs ps)], JSVal.undef⟩ f =
        encodePairs ps := by
      simp [facet_field, objGet, objGet?]
    rw [h2]
    unfold encodePairs specLastWins
    simp only [jsIter, objGet?, objSet, Option.isSome, Bool.false_eq_true, if_false]
    rw [facet_fold f ps []]
    rfl
  · intro v
    unfold specLastWins
    rw [objGet_foldl]
    cases List.find? (fun p => p.1 == v) ps.reverse <;> rfl

/-! ### C2 — `get_doc_highlight` on a fresh envelope -/

/-- An envelope with one document and a highlight entry keyed by the
document's identifier. -/
def rHl : Raw :=
  ⟨[], [.obj [("id", .str "A"), ("f", .str "x")]], [],
    .obj [("A", .obj [("f_label", .arr [.str "<em>x</em>"])])]⟩

/-- C2 (code bug): when `doc_key` is not a key of the highlighting
section and no identifier-based `get_doc` call has built the index yet,
`get_doc_highlight` reads `this._doc_index2id[doc_id]` — but that
property is `undefined` on a fresh envelope (the constructor initialises
the misspelled `_doc_index2_id`), so the lookup throws a `TypeError`
instead of returning null.  The direct identifier-keyed lookup on the
same envelope works and returns the fragment. -/
theorem get_doc_highlight_first_call_throws :
    get_doc_highlight rHl stInit (.num 0) "f" (.str "x") = .error .typeError ∧
    get_doc_highlight rHl stInit (.str "A") "f" (.str "x") =
      .ok (.str "<em>x</em>", stInit) :=
  ⟨rfl, rfl⟩

/-! ### C3 — the label-map cache key -/

/-- An envelope with one document (identifier `"A"`) whose field `f` has
a multi-valued label resolved through the JSON-encoded `f_map`. -/
def rCache : Raw :=
  ⟨[], [.obj [("id", .str "A"), ("f", .arr [.str "x", .str "y"]),
    ("f_label", .arr [.str "X", .str "Y"]),
    ("f_map", .str "\x7b\"x\":\"X\",\"y\":\"Y\"\x7d")]], [], .undef⟩

/-- State after resolving `x` in `rCache` by position 0: the decoded map
is cached under the caller's key `"0"`. -/
def stCache1 : St :=
  ⟨none, none, [("0", .obj [("f_map", .obj [("x", .str "X"), ("y", .str "Y")])])], 1⟩

/-- State after additionally resolving `x` in `rCache` by identifier
`"A"`: a second decode of the same map string, cached separately. -/
def stCache2 : St :=
  ⟨some [("A", .num 0)], some [("0", .str "A")],
    [("0", .obj [("f_map", .obj [("x", .str "X"), ("y", .str "Y")])]),
     ("A", .obj [("f_map", .obj [("x", .str "X"), ("y", .str "Y")])])], 2⟩

/-- C3 counterexample: resolving a label by position 0 caches the
decoded map under the key `"0"`, not under the document identifier
`"A"`; resolving the same item of the same document again by its
identifier decodes the same JSON string a second time (ghost decode
counter reaches 2), refuting decoded-at-most-once-per-document. -/
theorem label_cache_keyed_by_caller_counterexample :
    get_doc_label rCache stInit (.num 0) "f" (.str "x") = .ok (.str "X", stCache1) ∧
    objGet? stCache1.doc_label_maps "A" = none ∧
    get_doc_label rCache stCache1 (.str "A") "f" (.str "x") = .ok (.str "X", stCache2) ∧
    stCache2.decodes = 2 :=
  ⟨rfl, rfl, rfl, rfl⟩

/-- C3 (amended): the decoded mapping is cached keyed by the
caller-supplied `doc_key` (coerced to a string) together with the map
field name: a successful `_map_to_try` run decodes at most once, and
repeating it with the same key and map field returns the same label and
leaves the caches exactly as they were — while calls that refer to the
same document through a different key (position versus identifier) use
a different cache entry and decode separately, as the counterexample
shows. -/
theorem map_to_try_cached_reuse (r : Raw) (st : St) (k : JSVal) (mf : String)
    (i v : JSVal) (st' : St)
    (hwf : ∀ p ∈ st.doc_label_maps, isObj p.2 = true)
    (h : map_to_try r st k mf i = .ok (v, st')) :
    map_to_try r st' k mf i = .ok (v, st') ∧ st'.decodes ≤ st.decodes + 1 :=
  map_to_try_reuse r st k mf i hwf v st' h

/-- C3 witness: a concrete probe of `rCache`'s `f_map` by position 0
decodes once; replaying it reuses the cache and changes nothing. -/
theorem map_to_try_cached_reuse_witness :
    map_to_try rCache stInit (.num 0) "f_map" (.str "x") = .ok (.str "X", stCache1) ∧
    map_to_try rCache stCache1 (.num 0) "f_map" (.str "x") = .ok (.str "X", stCache1) ∧
    stCache1.decodes ≤ stInit.decodes + 1 := by
  have h := map_to_try_cached_reuse rCache stInit (.num 0) "f_map" (.str "x")
    (.str "X") stCache1 (by decide) rfl
  exact ⟨rfl, h.1, h.2⟩

/-! ### C5 — positional precedence in `get_doc` -/

theorem truthy_of_isObj (v : JSVal) (h : isObj v = true) : truthy v = true := by
  cases v <;> simp_all [isObj, truthy]

/-- C5 (confirmed): for every zero-based position `p` that is a valid
index into the document sequence (of documents, i.e. objects),
`get_doc p` returns the document at position `p` and does not touch the
state — identifier lookup is never consulted, so positional
interpretation always takes precedence. -/
theorem get_doc_positional (r : Raw) (st : St) (p : Nat)
    (h1 : p < r.docs.length) (h2 : ∀ d ∈ r.docs, isObj d = true) :
    get_doc r st (.num p) = .ok (r.docs.getD p .undef, st) := by
  have harr : arrElem r.docs (.num (p : Int)) = r.docs.getD p .undef := by
    show (if 0 ≤ (p : Int) then r.docs.getD (p : Int).toNat .undef else .undef) = _
    rw [if_pos (Int.natCast_nonneg p), Int.toNat_natCast]
  have hmem : r.docs.getD p .undef ∈ r.docs := by
    rw [List.getD_eq_getElem?_getD, List.getElem?_eq_getElem h1, Option.getD_some]
    exact List.getElem_mem h1
  have ht : truthy (r.docs.getD p .undef) = true :=
    truthy_of_isObj _ (h2 _ hmem)
  simp only [get_doc]
  rw [harr, if_pos ht]

/-- An envelope where document identifiers collide numerically with
positions: position 0 holds the document whose id is 1. -/
def rColl : Raw := ⟨[], [.obj [("id", .num 1)], .obj [("id", .num 0)]], [], .undef⟩

/-- C5 witness: in `rColl`, `get_doc 0` returns the document at position
0 (its id is 1), not the document whose identifier is 0. -/
theorem get_doc_positional_witness :
    get_doc rColl stInit (.num 0) = .ok (.obj [("id", .num 1)], stInit) := by
  have h := get_doc_positional rColl stInit 0 (by decide) (by decide)
  exact h

/-! ### C7 — scalar `_label` strings -/

/-- An envelope whose document stores the empty string as the scalar
`f_label` value. -/
def rEmptyLabel : Raw :=
  ⟨[], [.obj [("id", .str "A"), ("f", .str "x"), ("f_label", .str "")]], [], .undef⟩

/-- C7 counterexample: with the empty string as the scalar `_label`
value — a single scalar string — `get_doc_label` returns null, not the
string verbatim (the source tests the label for truthiness). -/
theorem get_doc_label_empty_label_counterexample :
    get_doc_label rEmptyLabel stInit (.num 0) "f" (.str "x") = .ok (.null, stInit) ∧
    JSVal.null ≠ JSVal.str "" :=
  ⟨rfl, fun h => JSVal.noConfusion h⟩

/-- C7 (amended): when the document contains the field and its `_label`
value is a single NON-EMPTY scalar string, `get_doc_label` returns that
string verbatim, and neither decodes anything nor touches the label-map
cache. -/
theorem get_doc_label_scalar_label (r : Raw) (st stA stB : St) (k i doc : JSVal)
    (f s : String)
    (h1 : get_doc r st k = .ok (doc, stA))
    (h2 : truthy doc = true)
    (h3 : isUndef (propT doc f) = false)
    (h4 : get_doc_field r stA k (f ++ "_label") = .ok (.str s, stB))
    (h5 : s ≠ "") :
    get_doc_label r st k f i = .ok (.str s, stB) ∧
    stB.doc_label_maps = st.doc_label_maps ∧ stB.decodes = st.decodes := by
  have hA := get_doc_preserves r st k doc stA h1
  have hB := get_doc_field_preserves r stA k (f ++ "_label") (.str s) stB h4
  refine ⟨?_, by rw [hB.1, hA.1], by rw [hB.2, hA.2]⟩
  unfold get_doc_label
  rw [h1, ebind_ok]
  dsimp only
  rw [if_pos (by rw [h2, h3]; rfl)]
  rw [h4, ebind_ok]
  dsimp only
  rw [if_pos (by simp [truthy, isStr, h5])]

/-- An envelope with a non-empty scalar label. -/
def rScalarW : Raw :=
  ⟨[], [.obj [("id", .str "A"), ("f", .str "x"), ("f_label", .str "X")]], [], .undef⟩

/-- C7 witness: the scalar label `"X"` is returned verbatim with an
untouched cache. -/
theorem get_doc_label_scalar_label_witness :
    get_doc_label rScalarW stInit (.num 0) "f" (.str "x") = .ok (.str "X", stInit) ∧
    stInit.doc_label_maps = stInit.doc_label_maps ∧
    stInit.decodes = stInit.decodes := by
  have h := get_doc_label_scalar_label rScalarW stInit stInit stInit (.num 0)
    (.str "x") (.obj [("id", .str "A"), ("f", .str "x"), ("f_label", .str "X")])
    "f" "X" rfl rfl rfl rfl (by decide)
  exact h

/-! ### C9 — `parameter` -/

/-- An envelope whose `rows` parameter is present but holds the empty
string. -/
def rFalsy : Raw := ⟨[("rows", .str "")], [], [], .undef⟩

/-- C9 counterexample: the key `rows` is present in
`responseHeader.params` with the stored value `""`, yet `parameter`
returns null — so a present key does not always yield its stored value,
and null does not characterise absence. -/
theorem parameter_falsy_counterexample :
    objGet? rFalsy.params "rows" = some (.str "") ∧
    parameter rFalsy "rows" = .null ∧
    JSVal.null ≠ JSVal.str "" :=
  ⟨rfl, rfl, fun h => JSVal.noConfusion h⟩

/-- C9 (amended): `parameter key` returns the stored value when the key
is present with a truthy value, and null when the key is absent or its
stored value is falsy (such as the empty string). -/
theorem parameter_truthy_spec (r : Raw) (key : String) :
    (objGet? r.params key = none → parameter r key = .null) ∧
    (∀ v, objGet? r.params key = some v →
      parameter r key = if truthy v then v else .null) := by
  constructor
  · intro h
    unfold parameter objGet
    rw [h]
    rfl
  · intro v h
    unfold parameter objGet
    rw [h]
    rfl

/-- An envelope with a truthy `packet` parameter. -/
def rParamW : Raw := ⟨[("packet", .str "7")], [], [], .undef⟩

/-- C9 witness: a present truthy value is returned as stored; an absent
key gives null. -/
theorem parameter_truthy_spec_witness :
    parameter rParamW "packet" = .str "7" ∧ parameter rParamW "rows" = .null := by
  constructor
  · rw [(parameter_truthy_spec rParamW "packet").2 (.str "7") rfl]
    rfl
  · exact (parameter_truthy_spec rParamW "rows").1 rfl

/-! ### C10 — empty-string labels -/

/-- An envelope hitting the trivial one-label case with an empty-string
label. -/
def rTrivial : Raw :=
  ⟨[], [.obj [("id", .str "A"), ("f", .arr [.str "x"]),
    ("f_label", .arr [.str ""])]], [], .undef⟩

/-- C10 counterexample: `get_doc_label` CAN return an empty-string
label — the trivial length-1 sequence case returns the sole label
element without any emptiness check. -/
theorem get_doc_label_trivial_empty_counterexample :
    get_doc_label rTrivial stInit (.num 0) "f" (.str "x") = .ok (.str "", stInit) ∧
    JSVal.str "" ≠ JSVal.null :=
  ⟨rfl, fun h => JSVal.noConfusion h⟩

/-- C10 (amended): an empty string stored as the scalar `_label` value
is treated as a miss and yields null (without any map probing), and an
empty string stored as a value of a decoded map is treated as a miss by
the map probe; only the unchecked trivial length-1 case (see the
counterexample) can surface an empty-string label. -/
theorem get_doc_label_empty_as_miss :
    (∀ (r : Raw) (st stA stB : St) (k i doc : JSVal) (f : String),
      get_doc r st k = .ok (doc, stA) → truthy doc = true →
      isUndef (propT doc f) = false →
      get_doc_field r stA k (f ++ "_label") = .ok (.str "", stB) →
      get_doc_label r st k f i = .ok (.null, stB)) ∧
    (∀ (r : Raw) (st st1 : St) (k i : JSVal) (mf s : String) (mp : JSVal),
      get_doc_field r st k mf = .ok (.str s, st1) → s ≠ "" →
      isUndef (objGet st1.doc_label_maps (jsKeyOfVal k)) = true →
      jparse s = some mp →
      propT mp (jsKeyOfVal i) = .str "" →
      ∃ st', map_to_try r st k mf i = .ok (.null, st')) := by
  constructor
  · intro r st stA stB k i doc f h1 h2 h3 h4
    unfold get_doc_label
    rw [h1, ebind_ok]
    dsimp only
    rw [if_pos (by rw [h2, h3]; rfl)]
    rw [h4, ebind_ok]
    dsimp only
    rw [if_neg (by decide), if_neg (by decide)]
  · intro r st st1 k i mf s mp hgf hs hu hjp hprop
    unfold map_to_try
    rw [hgf, ebind_ok]
    dsimp only
    have hfs : objGet (if isUndef (objGet st1.doc_label_maps (jsKeyOfVal k)) = true
        then objSet st1.doc_label_maps (jsKeyOfVal k) (.obj [])
        else st1.doc_label_maps) (jsKeyOfVal k) = .obj [] := by
      rw [if_pos hu, objGet_objSet_self]
    have hc : (truthy (JSVal.str s) && isStr (.str s)) = true := by
      simp [truthy, isStr, hs]
    rw [mapProbe_decode st1 (jsKeyOfVal k) mf (.str s) i [] mp hc hfs rfl hjp]
    rw [hprop]
    refine ⟨⟨st1.doc_id2index, st1.doc_index2id,
      objSet (if isUndef (objGet st1.doc_label_maps (jsKeyOfVal k)) = true then
        objSet st1.doc_label_maps (jsKeyOfVal k) (.obj []) else st1.doc_label_maps)
        (jsKeyOfVal k) (.obj (objSet [] mf mp)),
      st1.decodes + 1⟩, ?_⟩
    rw [if_neg (by simp [truthy])]

/-- An envelope whose document has an empty scalar `g_label` and whose
decoded `f_map` stores the empty string for item `x`. -/
def rMapEmpty : Raw :=
  ⟨[], [.obj [("id", .str "A"), ("g", .str "x"), ("g_label", .str ""),
    ("f_map", .str "\x7b\"x\":\"\"\x7d")]], [], .undef⟩

/-- C10 witness: the scalar empty label of field `g` resolves to null,
and probing `f_map` — whose entry for `x` is the empty string —
misses. -/
theorem get_doc_label_empty_as_miss_witness :
    get_doc_label rMapEmpty stInit (.num 0) "g" (.str "x") = .ok (.null, stInit) ∧
    (∃ st', map_to_try rMapEmpty stInit (.num 0) "f_map" (.str "x") =
      .ok (.null, st')) := by
  constructor
  · exact get_doc_label_empty_as_miss.1 rMapEmpty stInit stInit stInit (.num 0)
      (.str "x")
      (.obj [("id", .str "A"), ("g", .str "x"), ("g_label", .str ""),
        ("f_map", .str "\x7b\"x\":\"\"\x7d")])
      "g" rfl rfl rfl rfl
  · exact get_doc_label_empty_as_miss.2 rMapEmpty stInit stInit (.num 0) (.str "x")
      "f_map" "\x7b\"x\":\"\"\x7d" (.obj [("x", .str "")]) rfl (by decide) rfl rfl rfl

/-! ### C4 — `query_filters` -/

theorem splitColon_ne_nil (s : List Char) : splitColon s ≠ [] := by
  cases s with
  | nil => simp [splitColon]
  | cons c rest =>
    unfold splitColon
    by_cases hc : c = ':'
    · simp [hc]
    · rw [if_neg hc]
      cases h : splitColon rest <;> simp

theorem splitColon_append (a b : List Char) (ha : ':' ∉ a) :
    splitColon (a ++ ':' :: b) = a :: splitColon b := by
  induction a with
  | nil => simp [splitColon]
  | cons c a ih =>
    have hc : c ≠ ':' := fun h => ha (by simp [h])
    have ha' : ':' ∉ a := fun h => ha (List.mem_cons_of_mem _ h)
    show splitColon ((c :: a) ++ ':' :: b) = (c :: a) :: splitColon b
    rw [List.cons_append]
    conv_lhs => rw [splitColon]
    rw [if_neg hc, ih ha']

theorem joinColon_splitColon (v : List Char) : joinColon (splitColon v) = v := by
  induction v with
  | nil => rfl
  | cons c v ih =>
    by_cases hc : c = ':'
    · subst hc
      simp only [splitColon, if_pos rfl]
      cases h : splitColon v with
      | nil => exact absurd h (splitColon_ne_nil v)
      | cons s ss =>
        rw [h] at ih
        rw [if_pos trivial, ← ih]
        simp [joinColon]
    · simp only [splitColon, if_neg hc]
      cases h : splitColon v with
      | nil => exact absurd h (splitColon_ne_nil v)
      | cons s ss =>
        rw [h] at ih
        show joinColon ((c :: s) :: ss) = c :: v
        cases ss with
        | nil =>
          simp only [joinColon] at ih ⊢
          rw [ih]
        | cons s2 ss2 =>
          simp only [joinColon] at ih ⊢
          rw [← ih]
          simp

theorem stripOuterQuotes_wrapped (v : List Char) :
    stripOuterQuotes ('"' :: (v ++ ['"'])) = v := by
  have hlen : ('"' :: (v ++ ['"'])).length = v.length + 2 := by simp
  have hlast : ('"' :: (v ++ ['"'])).get? (v.length + 1) = some '"' := by
    simp only [List.get?_eq_getElem?, List.getElem?_cons_succ]
    exact List.getElem?_concat_length v '"'
  unfold stripOuterQuotes
  rw [hlen]
  rw [show v.length + 2 - 1 = v.length + 1 from by omega]
  rw [if_pos ⟨rfl, hlast⟩]
  unfold jsSubstring
  rw [hlen]
  dsimp only
  rw [show (1 : Nat) ⊓ (v.length + 2) = 1 from by omega,
    show (v.length + 1) ⊓ (v.length + 2) = v.length + 1 from by omega,
    show (1 : Nat) ⊓ (v.length + 1) = 1 from by omega,
    show (1 : Nat) ⊔ (v.length + 1) = v.length + 1 from by omega,
    show v.length + 1 - 1 = v.length from by omega]
  simp only [List.drop_one, List.tail_cons]
  exact List.take_left v ['"']

/-- The claim's first concrete example envelope
(`fq = "-assigned_by:\"UniProt\""`). -/
def rFq1 : Raw := ⟨[("fq", .str "-assigned_by:\"UniProt\"")], [], [], .undef⟩

/-- The claim's second concrete example envelope
(`fq = ["taxon:NCBITaxon:9606", "+type:protein"]`). -/
def rFq2 : Raw :=
  ⟨[("fq", .arr [.str "taxon:NCBITaxon:9606", .str "+type:protein"])], [], [], .undef⟩

/-- C4 (confirmed): `query_filters` returns the empty mapping when `fq`
is absent; the two concrete examples decode as the claim states; each
entry is split on the first colon only with the remaining colons
rejoined into the value; a leading `'-'` gives polarity false and a
leading `'+'` polarity true, both with the prefix removed; and a
matching outer pair of double quotes is stripped from the value. -/
theorem query_filters_spec :
    (∀ r : Raw, objGet? r.params "fq" = none → query_filters r = .ok []) ∧
    query_filters rFq1 = .ok [("assigned_by", [("UniProt", false)])] ∧
    query_filters rFq2 = .ok [("taxon", [("NCBITaxon:9606", true)]),
      ("type", [("protein", true)])] ∧
    (∀ a b : List Char, ':' ∉ a →
      fqField (a ++ ':' :: b) = a ∧ fqValue (a ++ ':' :: b) = b) ∧
    (∀ f : List Char, fqPolarity ('-' :: f) = (f, false) ∧
      fqPolarity ('+' :: f) = (f, true) ∧
      (∀ c, c ≠ '-' → c ≠ '+' → fqPolarity (c :: f) = (c :: f, true))) ∧
    (∀ v : List Char, stripOuterQuotes ('"' :: (v ++ ['"'])) = v) := by
  refine ⟨?_, rfl, rfl, ?_, ?_, stripOuterQuotes_wrapped⟩
  · intro r h
    unfold query_filters parameter objGet
    rw [h]
    rfl
  · intro a b ha
    constructor
    · unfold fqField
      rw [splitColon_append a b ha]
      rfl
    · unfold fqValue
      rw [splitColon_append a b ha]
      exact joinColon_splitColon b
  · intro f
    refine ⟨rfl, rfl, ?_⟩
    intro c hm hp
    unfold fqPolarity
    split
    · simp_all
    · simp_all
    · rfl

/-- An envelope without an `fq` parameter. -/
def rNoFq : Raw := ⟨[("q", .str "x")], [], [], .undef⟩

/-- C4 witness: the absent-`fq` case on a concrete envelope, a concrete
first-colon split with a colon in the value, a concrete negative-prefix
polarity, and a concrete quote strip. -/
theorem query_filters_spec_witness :
    query_filters rNoFq = .ok [] ∧
    fqField ("abc".data ++ ':' :: "d:e".data) = "abc".data ∧
    fqValue ("abc".data ++ ':' :: "d:e".data) = "d:e".data ∧
    fqPolarity ('-' :: "f".data) = ("f".data, false) ∧
    stripOuterQuotes ('"' :: ("UniProt".data ++ ['"'])) = "UniProt".data := by
  have h := query_filters_spec
  exact ⟨h.1 rNoFq rfl,
    (h.2.2.2.1 "abc".data "d:e".data (by decide)).1,
    (h.2.2.2.1 "abc".data "d:e".data (by decide)).2,
    (h.2.2.2.2.1 "f".data).1,
    h.2.2.2.2.2 "UniProt".data⟩

/-! ### C6 — map probing order in `get_doc_label` -/

/-- The tail of `get_doc_label` once it has fallen through to map
probing: the three auxiliary maps in their source order. -/
def probeTail (r : Raw) (stC : St) (k i : JSVal) (f : String) :
    Except JSErr (JSVal × St) := do
  let (m1, st) ← map_to_try r stC k (f ++ "_map") i
  if truthy m1 then .ok (m1, st)
  else
    let (m2, st) ← map_to_try r st k (f ++ "_closure_map") i
    if truthy m2 then .ok (m2, st)
    else
      let (m3, st) ← map_to_try r st k (f ++ "_list_map") i
      if truthy m3 then .ok (m3, st)
      else .ok (.null, st)

/-- Under the fall-through hypotheses — the `_label` value is a sequence
and the trivial case does not apply — `get_doc_label` runs exactly the
ordered probe chain `probeTail`. -/
theorem get_doc_label_fallthrough (r : Raw) (st stA stB stC : St)
    (k i doc iid : JSVal) (ls : List JSVal) (f : String)
    (h1 : get_doc r st k = .ok (doc, stA))
    (h2 : truthy doc = true)
    (h3 : isUndef (propT doc f) = false)
    (h4 : get_doc_field r stA k (f ++ "_label") = .ok (.arr ls, stB))
    (h5 : get_doc_field r stB k f = .ok (iid, stC))
    (h6 : (arrLen (.arr ls) == 1 && truthy iid && isArr iid &&
      arrLen iid == 1) = false) :
    get_doc_label r st k f i = probeTail r stC k i f := by
  unfold get_doc_label probeTail
  rw [h1, ebind_ok]
  dsimp only
  rw [if_pos (by rw [h2, h3]; rfl)]
  rw [h4, ebind_ok]
  dsimp only
  rw [if_neg (by simp [truthy, isStr]), if_pos (by simp [truthy, isArr])]
  rw [h5, ebind_ok]
  dsimp only
  rw [if_neg (by simp [h6])]

/-- C6 (amended): whenever `get_doc_label` falls through to map probing
— the `_label` value is a sequence (array) that does not match the
trivial length-1/length-1 case; an absent or non-sequence `_label`
yields null without any probing, see the counterexample — it probes
`_map`, then `_closure_map`, then `_list_map` in exactly that order,
returns the first truthy label found, and after a hit never runs the
later probes (the resulting state is the state right after the
successful probe). -/
theorem get_doc_label_probe_order (r : Raw) (st stA stB stC : St)
    (k i doc iid : JSVal) (ls : List JSVal) (f : String)
    (h1 : get_doc r st k = .ok (doc, stA))
    (h2 : truthy doc = true)
    (h3 : isUndef (propT doc f) = false)
    (h4 : get_doc_field r stA k (f ++ "_label") = .ok (.arr ls, stB))
    (h5 : get_doc_field r stB k f = .ok (iid, stC))
    (h6 : (arrLen (.arr ls) == 1 && truthy iid && isArr iid &&
      arrLen iid == 1) = false) :
    (∀ l st1, map_to_try r stC k (f ++ "_map") i = .ok (l, st1) →
      truthy l = true → get_doc_label r st k f i = .ok (l, st1)) ∧
    (∀ l1 st1 l2 st2, map_to_try r stC k (f ++ "_map") i = .ok (l1, st1) →
      truthy l1 = false →
      map_to_try r st1 k (f ++ "_closure_map") i = .ok (l2, st2) →
      truthy l2 = true → get_doc_label r st k f i = .ok (l2, st2)) ∧
    (∀ l1 st1 l2 st2 l3 st3, map_to_try r stC k (f ++ "_map") i = .ok (l1, st1) →
      truthy l1 = false →
      map_to_try r st1 k (f ++ "_closure_map") i = .ok (l2, st2) →
      truthy l2 = false →
      map_to_try r st2 k (f ++ "_list_map") i = .ok (l3, st3) →
      get_doc_label r st k f i =
        (if truthy l3 then .ok (l3, st3) else .ok (.null, st3))) := by
  have hpre := get_doc_label_fallthrough r st stA stB stC k i doc iid ls f
    h1 h2 h3 h4 h5 h6
  refine ⟨?_, ?_, ?_⟩
  · intro l st1 hm1 ht1
    rw [hpre]
    unfold probeTail
    rw [hm1, ebind_ok]
    dsimp only
    rw [if_pos ht1]
  · intro l1 st1 l2 st2 hm1 ht1 hm2 ht2
    rw [hpre]
    unfold probeTail
    rw [hm1, ebind_ok]
    dsimp only
    rw [if_neg (by simp [ht1]), hm2, ebind_ok]
    dsimp only
    rw [if_pos ht2]
  · intro l1 st1 l2 st2 l3 st3 hm1 ht1 hm2 ht2 hm3
    rw [hpre]
    unfold probeTail
    rw [hm1, ebind_ok]
    dsimp only
    rw [if_neg (by simp [ht1]), hm2, ebind_ok]
    dsimp only
    rw [if_neg (by simp [ht2]), hm3, ebind_ok]

/-- An envelope with a multi-valued field whose `f_map` misses item `x`
but whose `f_closure_map` resolves it. -/
def rProbe : Raw :=
  ⟨[], [.obj [("id", .str "A"), ("f", .arr [.str "x", .str "y"]),
    ("f_label", .arr [.str "X", .str "Y"]),
    ("f_map", .str "\x7b\"z\":\"Z\"\x7d"),
    ("f_closure_map", .str "\x7b\"x\":\"CX\"\x7d")]], [], .undef⟩

/-- State after probing `rProbe`'s `f_map` (miss) and `f_closure_map`
(hit): both decoded maps cached under the caller key `"0"`. -/
def stProbe : St :=
  ⟨none, none, [("0", .obj [("f_map", .obj [("z", .str "Z")]),
    ("f_closure_map", .obj [("x", .str "CX")])])], 2⟩

/-- C6 witness: in `rProbe` the `_map` probe misses and the
`_closure_map` probe supplies the label, which is returned with the
state of that second probe. -/
theorem get_doc_label_probe_order_witness :
    get_doc_label rProbe stInit (.num 0) "f" (.str "x") = .ok (.str "CX", stProbe) := by
  have h := (get_doc_label_probe_order rProbe stInit stInit stInit stInit
    (.num 0) (.str "x")
    (.obj [("id", .str "A"), ("f", .arr [.str "x", .str "y"]),
      ("f_label", .arr [.str "X", .str "Y"]),
      ("f_map", .str "\x7b\"z\":\"Z\"\x7d"),
      ("f_closure_map", .str "\x7b\"x\":\"CX\"\x7d")])
    (.arr [.str "x", .str "y"]) [.str "X", .str "Y"] "f"
    rfl rfl rfl rfl rfl rfl).2.1
  exact h (.null) ⟨none, none, [("0", .obj [("f_map", .obj [("z", .str "Z")])])], 1⟩
    (.str "CX") stProbe rfl rfl rfl rfl

/-- An envelope without the `f_label` field but with a resolving
`f_map`. -/
def rNoLabel : Raw :=
  ⟨[], [.obj [("id", .str "A"), ("f", .arr [.str "x", .str "y"]),
    ("f_map", .str "\x7b\"x\":\"X\"\x7d")]], [], .undef⟩

/-- C6 counterexample: with no `_label` field at all — a value that is
neither a single scalar string nor the trivial case — `get_doc_label`
does NOT probe the maps: it returns null and leaves the state untouched,
even though a direct `_map_to_try` probe of `f_map` would have produced
the label `"X"`. -/
theorem get_doc_label_no_label_counterexample :
    get_doc_label rNoLabel stInit (.num 0) "f" (.str "x") = .ok (.null, stInit) ∧
    map_to_try rNoLabel stInit (.num 0) "f_map" (.str "x") =
      .ok (.str "X", ⟨none, none,
        [("0", .obj [("f_map", .obj [("x", .str "X")])])], 1⟩) ∧
    JSVal.null ≠ JSVal.str "X" :=
  ⟨rfl, rfl, fun h => JSVal.noConfusion h⟩

/-! ### C8 — malformed map strings -/

/-- An envelope whose `f_map` is present as the EMPTY string. -/
def rEmptyMapStr : Raw :=
  ⟨[], [.obj [("id", .str "A"), ("f", .arr [.str "x", .str "y"]),
    ("f_label", .arr [.str "X", .str "Y"]),
    ("f_map", .str "")]], [], JSVal.undef⟩

/-- C8 counterexample: in `rEmptyMapStr` the probed `f_map` field is
present in the document as a string — the empty string — and that
string is not valid encoded JSON (`JSON.parse("")` throws a
`SyntaxError`), yet `get_doc_label` returns null with no error and no
state change: the truthiness guard `if( map_str && ... )` of
`_map_to_try` treats the empty map string like an absent field, so
`JSON.parse` is never reached and no decode failure can propagate. -/
theorem get_doc_label_empty_map_string_counterexample :
    isStr (propT (rEmptyMapStr.docs.getD 0 JSVal.undef) "f_map") = true ∧
    jparse (strOf (propT (rEmptyMapStr.docs.getD 0 JSVal.undef) "f_map")) =
      none ∧
    get_doc_label rEmptyMapStr stInit (.num 0) "f" (.str "x") =
      .ok (.null, stInit) ∧
    (Except.ok ((JSVal.null), stInit) : Except JSErr (JSVal × St)) ≠
      .error .parseError ∧
    (Except.ok ((JSVal.null), stInit) : Except JSErr (JSVal × St)) ≠
      .error .typeError :=
  ⟨rfl, rfl, rfl, fun h => Except.noConfusion h, fun h => Except.noConfusion h⟩

/-- The decoded-map cache holds no entry yet for key `dk` and map field
`mf`: either no slot for `dk` at all, or a slot object without an `mf`
member.  This is exactly the condition under which `_map_to_try`
reaches the bare `JSON.parse` call (after the `\x7b\x7d`-ensure step
for the `dk` slot). -/
def cacheMiss (st : St) (dk mf : String) : Prop :=
  isUndef (objGet st.doc_label_maps dk) = true ∨
  ∃ fs, objGet st.doc_label_maps dk = .obj fs ∧ isUndef (objGet fs mf) = true

/-- A `_map_to_try` probe whose map field holds a present, non-empty
string that is not valid encoded JSON, with no cached decoding for the
caller's key and that field, fails with the `JSON.parse` error. -/
theorem map_to_try_malformed (r : Raw) (st : St) (k i : JSVal)
    (mf s : String) (stD : St)
    (h7 : get_doc_field r st k mf = .ok (.str s, stD))
    (h8 : s ≠ "")
    (h9 : cacheMiss stD (jsKeyOfVal k) mf)
    (h10 : jparse s = none) :
    map_to_try r st k mf i = .error .parseError := by
  unfold map_to_try
  rw [h7, ebind_ok]
  dsimp only
  rcases h9 with hu | ⟨fs, hdk, hent⟩
  · have hfs : objGet (if isUndef (objGet stD.doc_label_maps (jsKeyOfVal k)) = true
        then objSet stD.doc_label_maps (jsKeyOfVal k) (.obj [])
        else stD.doc_label_maps) (jsKeyOfVal k) = .obj [] := by
      rw [if_pos hu, objGet_objSet_self]
    exact mapProbe_decode_err stD (jsKeyOfVal k) mf (.str s) i []
      (by simp [truthy, isStr, h8]) hfs rfl
      (by rw [show strOf (.str s) = s from rfl, h10])
  · have hfs : objGet (if isUndef (objGet stD.doc_label_maps (jsKeyOfVal k)) = true
        then objSet stD.doc_label_maps (jsKeyOfVal k) (.obj [])
        else stD.doc_label_maps) (jsKeyOfVal k) = .obj fs := by
      rw [if_neg (by rw [hdk]; simp [isUndef])]
      exact hdk
    exact mapProbe_decode_err stD (jsKeyOfVal k) mf (.str s) i fs
      (by simp [truthy, isStr, h8]) hfs hent
      (by rw [show strOf (.str s) = s from rfl, h10])

/-- C8 (amended): when `get_doc_label` falls through to map probing,
whichever of the three probed map fields — `field + "_map"`,
`"_closure_map"` or `"_list_map"` — is reached holding a present,
NON-EMPTY string that is not valid encoded JSON (with the preceding
probes, if any, having produced a non-truthy label, and no cached
decoding yet for the caller's key and that field), the decode failure
propagates to the caller as a hard error (`SyntaxError` from
`JSON.parse`) rather than a null result.  The non-emptiness proviso is
forced by the counterexample: a present-but-empty map string is falsy
and is skipped like an absent field, yielding null. -/
theorem get_doc_label_malformed_map_error (r : Raw) (st stA stB stC : St)
    (k i doc iid : JSVal) (ls : List JSVal) (f : String)
    (h1 : get_doc r st k = .ok (doc, stA))
    (h2 : truthy doc = true)
    (h3 : isUndef (propT doc f) = false)
    (h4 : get_doc_field r stA k (f ++ "_label") = .ok (.arr ls, stB))
    (h5 : get_doc_field r stB k f = .ok (iid, stC))
    (h6 : (arrLen (.arr ls) == 1 && truthy iid && isArr iid &&
      arrLen iid == 1) = false) :
    (∀ s stD, get_doc_field r stC k (f ++ "_map") = .ok (.str s, stD) →
      s ≠ "" → cacheMiss stD (jsKeyOfVal k) (f ++ "_map") →
      jparse s = none →
      get_doc_label r st k f i = .error .parseError) ∧
    (∀ l1 st1 s stD,
      map_to_try r stC k (f ++ "_map") i = .ok (l1, st1) →
      truthy l1 = false →
      get_doc_field r st1 k (f ++ "_closure_map") = .ok (.str s, stD) →
      s ≠ "" → cacheMiss stD (jsKeyOfVal k) (f ++ "_closure_map") →
      jparse s = none →
      get_doc_label r st k f i = .error .parseError) ∧
    (∀ l1 st1 l2 st2 s stD,
      map_to_try r stC k (f ++ "_map") i = .ok (l1, st1) →
      truthy l1 = false →
      map_to_try r st1 k (f ++ "_closure_map") i = .ok (l2, st2) →
      truthy l2 = false →
      get_doc_field r st2 k (f ++ "_list_map") = .ok (.str s, stD) →
      s ≠ "" → cacheMiss stD (jsKeyOfVal k) (f ++ "_list_map") →
      jparse s = none →
      get_doc_label r st k f i = .error .parseError) := by
  have hpre := get_doc_label_fallthrough r st stA stB stC k i doc iid ls f
    h1 h2 h3 h4 h5 h6
  refine ⟨?_, ?_, ?_⟩
  · intro s stD h7 h8 h9 h10
    rw [hpre]
    unfold probeTail
    rw [map_to_try_malformed r stC k i (f ++ "_map") s stD h7 h8 h9 h10,
      ebind_error]
  · intro l1 st1 s stD hm1 ht1 h7 h8 h9 h10
    rw [hpre]
    unfold probeTail
    rw [hm1, ebind_ok]
    dsimp only
    rw [if_neg (by simp [ht1])]
    rw [map_to_try_malformed r st1 k i (f ++ "_closure_map") s stD h7 h8 h9 h10,
      ebind_error]
  · intro l1 st1 l2 st2 s stD hm1 ht1 hm2 ht2 h7 h8 h9 h10
    rw [hpre]
    unfold probeTail
    rw [hm1, ebind_ok]
    dsimp only
    rw [if_neg (by simp [ht1]), hm2, ebind_ok]
    dsimp only
    rw [if_neg (by simp [ht2])]
    rw [map_to_try_malformed r st2 k i (f ++ "_list_map") s stD h7 h8 h9 h10,
      ebind_error]

/-- An envelope whose `f_map` holds a present-but-malformed JSON
string. -/
def rBadMap : Raw :=
  ⟨[], [.obj [("id", .str "A"), ("f", .arr [.str "x", .str "y"]),
    ("f_label", .arr [.str "X", .str "Y"]),
    ("f_map", .str "not json")]], [], JSVal.undef⟩

/-- An envelope without `f_map` but with a malformed `f_closure_map`,
so the error arises from the SECOND probed map field. -/
def rBadMap2 : Raw :=
  ⟨[], [.obj [("id", .str "A"), ("f", .arr [.str "x", .str "y"]),
    ("f_label", .arr [.str "X", .str "Y"]),
    ("f_closure_map", .str "also not json")]], [], JSVal.undef⟩

/-- C8 witness: resolving a label through `rBadMap`'s malformed `f_map`
propagates the parse error, and so does `rBadMap2`'s malformed
`f_closure_map`, reached after the `f_map` probe missed. -/
theorem get_doc_label_malformed_map_error_witness :
    get_doc_label rBadMap stInit (.num 0) "f" (.str "x") = .error .parseError ∧
    get_doc_label rBadMap2 stInit (.num 0) "f" (.str "x") = .error .parseError := by
  constructor
  · exact (get_doc_label_malformed_map_error rBadMap stInit stInit stInit stInit
      (.num 0) (.str "x")
      (.obj [("id", .str "A"), ("f", .arr [.str "x", .str "y"]),
        ("f_label", .arr [.str "X", .str "Y"]), ("f_map", .str "not json")])
      (.arr [.str "x", .str "y"]) [.str "X", .str "Y"] "f"
      rfl rfl rfl rfl rfl rfl).1 "not json" stInit
      rfl (by decide) (Or.inl rfl) rfl
  · exact (get_doc_label_malformed_map_error rBadMap2 stInit stInit stInit stInit
      (.num 0) (.str "x")
      (.obj [("id", .str "A"), ("f", .arr [.str "x", .str "y"]),
        ("f_label", .arr [.str "X", .str "Y"]),
        ("f_closure_map", .str "also not json")])
      (.arr [.str "x", .str "y"]) [.str "X", .str "Y"] "f"
      rfl rfl rfl rfl rfl rfl).2.1 JSVal.null stInit "also not json" stInit
      rfl rfl rfl (by decide) (Or.inl rfl) rfl

end Golr
